import Mathlib

/-!
# Verification of the dead-chat WebSocket server (src/server.js)

A shallow embedding of the protocol logic of `src/server.js`:
the handshake accept-token computation, the RFC 6455 frame codec,
nickname sanitization and uniqueness resolution, the history ring
buffer, the fixed-window rate limiter inside the data handler, the
upgrade admission gate, and the connection-teardown event flow.

Buffers are modelled as `List Nat` with every element a byte value
(< 256); machine arithmetic on 32-bit words is `Nat` arithmetic
taken `% 2 ^ 32`.  Timestamps (`Date.now()`) are `Nat` milliseconds.
-/

/-! ## Configuration constants (src/server.js lines 24-32) -/

def MAX_HISTORY : Nat := 50

def MAX_NICK_LEN : Nat := 24

def MAX_MSG_LEN : Nat := 1000

def MAX_CLIENTS : Nat := 100

def RATE_LIMIT_MSG : Nat := 5

def RATE_LIMIT_WIN : Nat := 1000

def WS_MAGIC : String := "258EAFA5-E914-47DA-95CA-C5AB0DC85B11"

/-! ## History ring buffer (src/server.js lines 39-42)

`history.push(msg); if (history.length > MAX_HISTORY) history.shift();`
-/

def addToHistory (history : List α) (msg : α) : List α :=
  if MAX_HISTORY < (history ++ [msg]).length then (history ++ [msg]).tail
  else history ++ [msg]

/-! ## Handshake accept token (src/server.js lines 45-49)

`crypto.createHash('sha1').update(key + WS_MAGIC).digest('base64')`,
embedded as SHA-1 over the UTF-8 bytes of the string, then base64.
-/

/-- UTF-8 encoding of a string, one code point at a time. -/
def utf8Bytes (s : String) : List Nat :=
  s.data.flatMap fun c =>
    let n := c.toNat
    if n < 128 then [n]
    else if n < 2048 then [192 + n / 64, 128 + n % 64]
    else if n < 65536 then [224 + n / 4096, 128 + n / 64 % 64, 128 + n % 64]
    else [240 + n / 262144, 128 + n / 4096 % 64, 128 + n / 64 % 64, 128 + n % 64]

/-- Rotate a 32-bit word left by `b` bits. -/
def rotl32 (b x : Nat) : Nat := (x * 2 ^ b + x / 2 ^ (32 - b)) % 2 ^ 32

/-- Big-endian 32-bit words from a byte list (SHA-1 message schedule input). -/
def bytesToWords : List Nat → List Nat
  | a :: b :: c :: d :: rest => (a * 16777216 + b * 65536 + c * 256 + d) :: bytesToWords rest
  | _ => []

/-- Extend the 16-word schedule by `n` further words. -/
def sha1Expand (w : List Nat) : Nat → List Nat
  | 0 => w
  | n + 1 =>
    let t := rotl32 1 ((w.getD (w.length - 3) 0) ^^^ (w.getD (w.length - 8) 0) ^^^
                      (w.getD (w.length - 14) 0) ^^^ (w.getD (w.length - 16) 0))
    sha1Expand (w ++ [t]) n

/-- SHA-1 round function, by round index. -/
def sha1F (i b c d : Nat) : Nat :=
  if i < 20 then Nat.lor (Nat.land b c) (Nat.land (Nat.xor b 4294967295) d)
  else if i < 40 then Nat.xor (Nat.xor b c) d
  else if i < 60 then Nat.lor (Nat.lor (Nat.land b c) (Nat.land b d)) (Nat.land c d)
  else Nat.xor (Nat.xor b c) d

/-- SHA-1 round constants, by round index. -/
def sha1K (i : Nat) : Nat :=
  if i < 20 then 0x5A827999 else if i < 40 then 0x6ED9EBA1
  else if i < 60 then 0x8F1BBCDC else 0xCA62C1D6

/-- The five SHA-1 working registers / chaining values. -/
structure Sha1H where
  h0 : Nat
  h1 : Nat
  h2 : Nat
  h3 : Nat
  h4 : Nat

/-- One SHA-1 compression round. -/
def sha1Round (st : Sha1H) (iw : Nat × Nat) : Sha1H :=
  let t := (rotl32 5 st.h0 + sha1F iw.1 st.h1 st.h2 st.h3 + st.h4 + sha1K iw.1 + iw.2) % 2 ^ 32
  ⟨t, st.h0, rotl32 30 st.h1, st.h2, st.h3⟩

/-- Compress one 64-byte block into the chaining state. -/
def sha1Block (h : Sha1H) (block : List Nat) : Sha1H :=
  let w := sha1Expand (bytesToWords block) 64
  let r := ((List.range 80).zip w).foldl sha1Round h
  ⟨(h.h0 + r.h0) % 2 ^ 32, (h.h1 + r.h1) % 2 ^ 32, (h.h2 + r.h2) % 2 ^ 32,
   (h.h3 + r.h3) % 2 ^ 32, (h.h4 + r.h4) % 2 ^ 32⟩

/-- Big-endian 8-byte encoding of the bit length. -/
def bytesBE8 (n : Nat) : List Nat :=
  [n / 2 ^ 56 % 256, n / 2 ^ 48 % 256, n / 2 ^ 40 % 256, n / 2 ^ 32 % 256,
   n / 2 ^ 24 % 256, n / 2 ^ 16 % 256, n / 2 ^ 8 % 256, n % 256]

/-- SHA-1 padding: 0x80, zeros to 56 mod 64, then the 64-bit bit length. -/
def sha1Pad (msg : List Nat) : List Nat :=
  msg ++ [128] ++ List.replicate ((120 - (msg.length + 1) % 64) % 64) 0 ++ bytesBE8 (msg.length * 8)

/-- Split a byte list into 64-byte blocks (fuel bounds the recursion). -/
def chunks64 (fuel : Nat) (l : List Nat) : List (List Nat) :=
  match fuel with
  | 0 => []
  | fuel + 1 => if l.isEmpty then [] else l.take 64 :: chunks64 fuel (l.drop 64)

/-- Big-endian 4-byte encoding of a 32-bit word. -/
def wordBytesBE (n : Nat) : List Nat :=
  [n / 16777216 % 256, n / 65536 % 256, n / 256 % 256, n % 256]

/-- SHA-1 digest (20 bytes) of a byte list. -/
def sha1 (msg : List Nat) : List Nat :=
  let padded := sha1Pad msg
  let h := (chunks64 padded.length padded).foldl sha1Block
    ⟨0x67452301, 0xEFCDAB89, 0x98BADCFE, 0x10325476, 0xC3D2E1F0⟩
  wordBytesBE h.h0 ++ wordBytesBE h.h1 ++ wordBytesBE h.h2 ++ wordBytesBE h.h3 ++ wordBytesBE h.h4

def b64Alphabet : List Char :=
  "ABCDEFGHIJKLMNOPQRSTUVWXYZabcdefghijklmnopqrstuvwxyz0123456789+/".data

/-- Standard base64 with '=' padding, three input bytes per four output chars. -/
def b64Enc : List Nat → List Char
  | [] => []
  | [a] => [b64Alphabet.getD (a / 4) 'A', b64Alphabet.getD (a % 4 * 16) 'A', '=', '=']
  | [a, b] => [b64Alphabet.getD (a / 4) 'A', b64Alphabet.getD (a % 4 * 16 + b / 16) 'A',
               b64Alphabet.getD (b % 16 * 4) 'A', '=']
  | a :: b :: c :: rest =>
    b64Alphabet.getD (a / 4) 'A' :: b64Alphabet.getD (a % 4 * 16 + b / 16) 'A' ::
    b64Alphabet.getD (b % 16 * 4 + c / 64) 'A' :: b64Alphabet.getD (c % 64) 'A' :: b64Enc rest

/-- `computeAccept` (src/server.js 45-49): base64 of SHA-1 of key ++ GUID. -/
def computeAccept (key : String) : String :=
  String.mk (b64Enc (sha1 (utf8Bytes (key ++ WS_MAGIC))))

/-! ## Frame codec (src/server.js lines 75-147) -/

/-- `buf.readUInt16BE i`. -/
def readUInt16BE (buf : List Nat) (i : Nat) : Nat :=
  buf.getD i 0 * 256 + buf.getD (i + 1) 0

/-- `buf.readUInt32BE i`. -/
def readUInt32BE (buf : List Nat) (i : Nat) : Nat :=
  buf.getD i 0 * 16777216 + buf.getD (i + 1) 0 * 65536 + buf.getD (i + 2) 0 * 256 + buf.getD (i + 3) 0

/-- The result record of `parseFrame`: `{ opcode, payload, totalLength }`. -/
structure Frame where
  opcode : Nat
  payload : List Nat
  totalLength : Nat
deriving DecidableEq, Repr

/-- `parseFrame` (src/server.js 75-108).  `none` is the source's `null`
("not enough data yet").  On a byte (< 256) `b`, `b & 0x0F = b % 16`,
`(b & 0x80) !== 0` iff `b / 128 % 2 = 1`, and `b & 0x7F = b % 128`. -/
def parseFrame (buf : List Nat) : Option Frame :=
  if buf.length < 2 then none else
  let opcode := buf.getD 0 0 % 16
  let masked := buf.getD 1 0 / 128 % 2 = 1
  let payLen0 := buf.getD 1 0 % 128
  let ext : Option (Nat × Nat) :=
    if payLen0 = 126 then
      if buf.length < 4 then none else some (readUInt16BE buf 2, 4)
    else if payLen0 = 127 then
      if buf.length < 10 then none else some (readUInt32BE buf 6, 10)
    else some (payLen0, 2)
  match ext with
  | none => none
  | some (payLen, offset) =>
    if masked then
      if buf.length < offset + 4 + payLen then none
      else
        let mask := (buf.drop offset).take 4
        let payload := (List.range payLen).map fun i =>
          Nat.xor (buf.getD (offset + 4 + i) 0) (mask.getD (i % 4) 0)
        some ⟨opcode, payload, offset + 4 + payLen⟩
    else
      if buf.length < offset + payLen then none
      else some ⟨opcode, (buf.drop offset).take payLen, offset + payLen⟩

/-- `buildFrame` (src/server.js 111-133) at the byte level: the payload
argument is the UTF-8 byte list of the text.  Servers never mask. -/
def buildFrame (payload : List Nat) : List Nat :=
  let len := payload.length
  let header :=
    if len < 126 then [0x81, len]
    else if len < 65536 then [0x81, 126, len / 256, len % 256]
    else [0x81, 127, 0, 0, 0, 0,
          len / 16777216 % 256, len / 65536 % 256, len / 256 % 256, len % 256]
  header ++ payload

/-- `buildFrame` applied to a text string, as in the source. -/
def buildFrameText (text : String) : List Nat := buildFrame (utf8Bytes text)

/-- The number of bytes `parseFrame` currently requires of a buffer
before it can return a complete frame: 2 to read the basic header, 4
(resp. 10) once the extended-length marker 126 (resp. 127) is seen, and
finally header + mask key + payload. -/
def frameRequired (buf : List Nat) : Nat :=
  if buf.length < 2 then 2 else
  let masked := buf.getD 1 0 / 128 % 2 = 1
  let payLen0 := buf.getD 1 0 % 128
  if payLen0 = 126 then
    if buf.length < 4 then 4
    else 4 + (if masked then 4 else 0) + readUInt16BE buf 2
  else if payLen0 = 127 then
    if buf.length < 10 then 10
    else 10 + (if masked then 4 else 0) + readUInt32BE buf 6
  else 2 + (if masked then 4 else 0) + payLen0

/-- One iteration of the data-handler parse loop (src/server.js 225-229):
parse the accumulation buffer; on `null` break and keep the buffer, on a
frame consume `totalLength` bytes. -/
def dataStep (buf : List Nat) : Option Frame × List Nat :=
  if buf.length < 2 then (none, buf)
  else
    match parseFrame buf with
    | none => (none, buf)
    | some f => (some f, buf.drop f.totalLength)

/-! ## Nickname helpers (src/server.js lines 166-177) -/

/-- A character removed by JS `String.prototype.trim`: the ECMAScript
WhiteSpace and LineTerminator code points. -/
def isTrimmedChar (c : Char) : Bool :=
  c.toNat = 9 || c.toNat = 10 || c.toNat = 11 || c.toNat = 12 || c.toNat = 13 ||
  c.toNat = 32 || c.toNat = 160 || c.toNat = 5760 ||
  (8192 ≤ c.toNat && c.toNat ≤ 8202) ||
  c.toNat = 8232 || c.toNat = 8233 || c.toNat = 8239 || c.toNat = 8287 ||
  c.toNat = 12288 || c.toNat = 65279

/-- JS `s.trim()`: drop trimmed characters from both ends. -/
def jsTrim (s : String) : String :=
  String.mk (((s.data.dropWhile isTrimmedChar).reverse.dropWhile isTrimmedChar).reverse)

/-- A character kept by the regex replace `/[^\w\-. ]/g` → `''`:
`\w` is `[A-Za-z0-9_]`, plus dash, dot and space. -/
def isNickChar (c : Char) : Bool :=
  c.isAlphanum || c = '_' || c = '-' || c = '.' || c = ' '

/-- `sanitizeNick` (src/server.js 166-169): trim, strip out-of-policy
characters, truncate to `MAX_NICK_LEN`, default `"Anonymous"` if empty. -/
def sanitizeNick (raw : String) : String :=
  if (((jsTrim raw).data.filter isNickChar).take MAX_NICK_LEN).isEmpty then "Anonymous"
  else String.mk (((jsTrim raw).data.filter isNickChar).take MAX_NICK_LEN)

/-- The candidate `` `${desired}${n}` `` tried by the `uniqueNick` loop. -/
def nickCandidate (desired : String) (n : Nat) : String := desired ++ toString n

/-- The `while (taken.has(...)) n++` search of `uniqueNick`, with explicit
fuel; `uniqueNickFree` below shows `taken.length + 1` fuel always reaches
a free candidate, so the fueled function equals the unbounded loop. -/
def firstFreeNick (taken : List String) (desired : String) : Nat → Nat → String
  | n, 0 => nickCandidate desired n
  | n, fuel + 1 =>
    if nickCandidate desired n ∈ taken then firstFreeNick taken desired (n + 1) fuel
    else nickCandidate desired n

/-- `uniqueNick` (src/server.js 171-177), over the list of nicknames of
currently-live connections. -/
def uniqueNick (taken : List String) (desired : String) : String :=
  if desired ∈ taken then firstFreeNick taken desired 2 (taken.length + 1)
  else desired

/-! ## Chat-message branch of the data handler (src/server.js lines 259-279) -/

/-- A broadcast chat message `{ type:'message', nick, text, ts }`. -/
structure ChatMsg where
  nick : String
  text : String
  ts : Nat
deriving DecidableEq, Repr

/-- The per-connection fields touched by the message branch. -/
structure ChatClient where
  nick : String
  rateCount : Nat
  rateStart : Nat
deriving DecidableEq, Repr

/-- The server state touched by the message branch. -/
structure HandlerSt where
  client : ChatClient
  history : List ChatMsg
  broadcasts : List ChatMsg
deriving DecidableEq, Repr

/-- What one inbound chat message led to. -/
inductive ChatOutcome
  | kicked
  | dropped
  | delivered (msg : ChatMsg)
deriving DecidableEq, Repr

/-- The `parsed.type === 'message'` branch (src/server.js 259-279): fixed
window rate limiting (reset if more than `RATE_LIMIT_WIN` ms elapsed,
increment, kick when the count exceeds `RATE_LIMIT_MSG`), then trim and
truncate the text, drop it if empty, else append to history and
broadcast. -/
def handleChatText (st : HandlerSt) (text : String) (now : Nat) : HandlerSt × ChatOutcome :=
  let c := st.client
  let rateStart := if RATE_LIMIT_WIN < now - c.rateStart then now else c.rateStart
  let rateCount := (if RATE_LIMIT_WIN < now - c.rateStart then 0 else c.rateCount) + 1
  let c := { c with rateStart := rateStart, rateCount := rateCount }
  if RATE_LIMIT_MSG < rateCount then
    ({ st with client := c }, .kicked)
  else
    let text := String.mk ((jsTrim text).data.take MAX_MSG_LEN)
    if text = "" then ({ st with client := c }, .dropped)
    else
      let msg : ChatMsg := ⟨c.nick, text, now⟩
      ({ client := c, history := addToHistory st.history msg,
         broadcasts := st.broadcasts ++ [msg] }, .delivered msg)

/-- Process a sequence of timestamped inbound chat texts; a rate-limit
kick destroys the socket, so processing stops there. -/
def runChat (st : HandlerSt) : List (String × Nat) → HandlerSt × Bool × List ChatOutcome
  | [] => (st, false, [])
  | (text, now) :: rest =>
    match handleChatText st text now with
    | (st', .kicked) => (st', true, [.kicked])
    | (st', out) =>
      let (st'', kicked, outs) := runChat st' rest
      (st'', kicked, out :: outs)

/-! ## Upgrade admission (src/server.js lines 51-56, 180-204) -/

/-- The HTTP response written on the raw socket during upgrade handling. -/
inductive HttpResp
  | serviceUnavailable
  | switchingProtocols (accept : String)
deriving DecidableEq, Repr

/-- The connection record created at admission (id and resolved nick). -/
structure UpConn where
  id : Nat
  nick : String
deriving DecidableEq, Repr

/-- Registry state touched by `handleUpgrade`: the clients map (keyed by
socket handle) and the monotone id counter. -/
structure UpSt where
  clients : List (Nat × UpConn)
  nextId : Nat
deriving DecidableEq, Repr

/-- What `handleUpgrade` did to the socket. -/
structure UpgradeResult where
  resp : Option HttpResp
  socketDestroyed : Bool
  registered : Bool
deriving DecidableEq, Repr

/-- `handleUpgrade` admission (src/server.js 180-204 with `doHandshake`
51-71): refuse with 503 when the registry is full, destroy the socket
with no response when `Sec-WebSocket-Key` is missing, else write the 101
response and register a Connection with a fresh id and unique nick. -/
def handleUpgrade (st : UpSt) (sock : Nat) (secKey : Option String) (rawNick : String) :
    UpSt × UpgradeResult :=
  if MAX_CLIENTS ≤ st.clients.length then
    (st, ⟨some .serviceUnavailable, true, false⟩)
  else
    match secKey with
    | none => (st, ⟨none, true, false⟩)
    | some key =>
      let nick := uniqueNick (st.clients.map fun p => p.2.nick) (sanitizeNick rawNick)
      ({ clients := st.clients ++ [(sock, ⟨st.nextId, nick⟩)], nextId := st.nextId + 1 },
       ⟨some (.switchingProtocols (computeAccept key)), false, true⟩)

/-! ## Teardown and keepalive (src/server.js lines 290-319)

Node emits a socket's `'close'` event asynchronously, after the
synchronous code path that called `destroy()` has finished, and at most
once per socket; the `onClose` handler is registered with `once` and
captures the connection's nick.  Events are therefore modelled as an
explicit trace: a `destroy()` call marks the socket destroyed, and the
later `'close'` emission is a separate `closeEvt` trace entry.
-/

/-- Per-connection state seen by teardown and keepalive. -/
structure LConn where
  nick : String
  alive : Bool
deriving DecidableEq, Repr

/-- A `{ type:'system', text, ts, count }` message. -/
structure SysMsg where
  text : String
  ts : Nat
  count : Nat
deriving DecidableEq, Repr

/-- Server state for the teardown/keepalive flow: the registry, the
history buffer, the log of broadcast system messages, the log of pinged
sockets, and the set of destroyed sockets. -/
structure LState where
  clients : List (Nat × LConn)
  history : List SysMsg
  broadcasts : List SysMsg
  pinged : List Nat
  destroyed : List Nat
deriving DecidableEq, Repr

/-- `onClose` (src/server.js 290-297): if the socket is still registered,
delete it and broadcast a `system` leave message carrying the updated
count; otherwise do nothing. -/
def onClose (st : LState) (sid : Nat) (nick : String) (now : Nat) : LState :=
  if (st.clients.find? fun p => p.1 == sid).isSome then
    let clients' := st.clients.filter fun p => p.1 != sid
    let leaveMsg : SysMsg := ⟨nick ++ " left", now, clients'.length⟩
    { st with clients := clients',
              history := addToHistory st.history leaveMsg,
              broadcasts := st.broadcasts ++ [leaveMsg] }
  else st

/-- `socket.destroy()`: mark the socket destroyed (idempotent; the
`'close'` emission is a separate trace event). -/
def destroySocket (st : LState) (sid : Nat) : LState :=
  if sid ∈ st.destroyed then st else { st with destroyed := sid :: st.destroyed }

/-- One registry entry of the keepalive loop body (src/server.js
308-318): drop already-destroyed sockets, destroy-and-delete dead ones,
else clear the liveness flag and ping. -/
def tickOne (st : LState) (p : Nat × LConn) : LState :=
  if p.1 ∈ st.destroyed then
    { st with clients := st.clients.filter fun q => q.1 != p.1 }
  else if p.2.alive = false then
    let st' := destroySocket st p.1
    { st' with clients := st'.clients.filter fun q => q.1 != p.1 }
  else
    { st with
        clients := st.clients.map fun q =>
          if q.1 == p.1 then (q.1, { q.2 with alive := false }) else q,
        pinged := st.pinged ++ [p.1] }

/-- One `setInterval` keepalive tick (src/server.js 307-319), iterating
over a snapshot of the registry. -/
def keepaliveTick (st : LState) : LState := st.clients.foldl tickOne st

/-- Trace events of the teardown flow.  `closeFrame` and `rateKick` are
the synchronous `socket.destroy()` calls of the close-frame branch
(line 234) and the rate-limit branch (line 270); `sockError` is the
`'error'` handler (301-303) which invokes `onClose` directly;
`closeEvt` is the asynchronous `'close'` emission, carrying the nick the
handler captured. -/
inductive LEvent
  | closeFrame (sid : Nat)
  | rateKick (sid : Nat)
  | sockError (sid : Nat) (nick : String) (now : Nat)
  | closeEvt (sid : Nat) (nick : String) (now : Nat)
  | tick
deriving DecidableEq, Repr

/-- Process one trace event. -/
def lstep (st : LState) (e : LEvent) : LState :=
  match e with
  | .closeFrame sid => destroySocket st sid
  | .rateKick sid => destroySocket st sid
  | .sockError sid nick now => onClose st sid nick now
  | .closeEvt sid nick now => onClose st sid nick now
  | .tick => keepaliveTick st

/-- Process a trace. -/
def runEvents (st : LState) (evs : List LEvent) : LState := evs.foldl lstep st

/-! ## Decimal reading of digit strings

Used to invert `Nat.repr` (the `` `${desired}${n}` `` suffixes of
`uniqueNick`): the decimal value of a digit-character list.
-/

def digitVal (c : Char) : Nat := c.toNat - 48

def decValChars : List Char → Nat
  | [] => 0
  | c :: cs => digitVal c * 10 ^ cs.length + decValChars cs

/-! ## Theorems -/

theorem decValChars_toDigitsCore :
    ∀ (fuel n : Nat) (ds : List Char), n < fuel →
      decValChars (Nat.toDigitsCore 10 fuel n ds) = n * 10 ^ ds.length + decValChars ds := by
  intro fuel
  induction fuel with
  | zero => intro n ds h; omega
  | succ fuel ih =>
    intro n ds h
    obtain ⟨q, r, hr, rfl⟩ : ∃ q r, r < 10 ∧ n = 10 * q + r :=
      ⟨n / 10, n % 10, Nat.mod_lt _ (by omega), by omega⟩
    have hq : (10 * q + r) / 10 = q := by omega
    have hrr : (10 * q + r) % 10 = r := by omega
    rw [Nat.toDigitsCore]
    simp only [hq, hrr]
    by_cases hq0 : q = 0
    · subst hq0
      simp [decValChars, digitVal]
      have : Nat.digitChar r = Char.ofNat (r + 48) := by interval_cases r <;> rfl
      rw [this]
      have : (Char.ofNat (r + 48)).toNat = r + 48 := by interval_cases r <;> rfl
      simp [this]
    · simp only [hq0, if_false]
      rw [ih q (Nat.digitChar r :: ds) (by omega)]
      have hd : digitVal (Nat.digitChar r) = r := by interval_cases r <;> rfl
      simp [decValChars, hd, pow_succ]
      ring

theorem decValChars_repr (n : Nat) : decValChars (Nat.repr n).data = n := by
  have h := decValChars_toDigitsCore (n + 1) n [] (by omega)
  simpa [Nat.repr, Nat.toDigits, List.asString, decValChars] using h

theorem natRepr_injective : Function.Injective Nat.repr := by
  intro a b h
  have : decValChars (Nat.repr a).data = decValChars (Nat.repr b).data := by rw [h]
  rwa [decValChars_repr, decValChars_repr] at this

theorem nickCandidate_injective (desired : String) :
    Function.Injective (nickCandidate desired) := by
  intro a b h
  unfold nickCandidate at h
  have hd : (desired ++ toString a).data = (desired ++ toString b).data := by rw [h]
  simp only [String.data_append] at hd
  have : (toString a).data = (toString b).data := List.append_cancel_left hd
  exact natRepr_injective (String.ext this)

theorem exists_free_candidate (taken : List String) (desired : String) (n0 : Nat) :
    ∃ k, k ≤ taken.length ∧ nickCandidate desired (n0 + k) ∉ taken := by
  by_contra hall
  push_neg at hall
  have hnodup : ((List.range (taken.length + 1)).map
      fun k => nickCandidate desired (n0 + k)).Nodup := by
    refine List.Nodup.map ?_ (List.nodup_range _)
    intro a b h
    have := nickCandidate_injective desired h
    omega
  have hsub : ((List.range (taken.length + 1)).map
      fun k => nickCandidate desired (n0 + k)) ⊆ taken := by
    intro x hx
    simp only [List.mem_map, List.mem_range] at hx
    obtain ⟨k, hk, rfl⟩ := hx
    exact hall k (by omega)
  have hle := (List.subperm_of_subset hnodup hsub).length_le
  simp at hle

theorem firstFreeNick_not_mem (taken : List String) (desired : String) :
    ∀ (fuel n0 : Nat), (∃ k, k ≤ fuel ∧ nickCandidate desired (n0 + k) ∉ taken) →
      firstFreeNick taken desired n0 fuel ∉ taken := by
  intro fuel
  induction fuel with
  | zero =>
    intro n0 ⟨k, hk, hfree⟩
    have : k = 0 := by omega
    subst this
    simpa [firstFreeNick] using hfree
  | succ fuel ih =>
    intro n0 ⟨k, hk, hfree⟩
    rw [firstFreeNick]
    by_cases hmem : nickCandidate desired n0 ∈ taken
    · rw [if_pos hmem]
      refine ih (n0 + 1) ?_
      match k, hk with
      | 0, _ => exact absurd (by simpa using hmem) (by simpa using hfree)
      | k' + 1, hk => exact ⟨k', by omega, by have : n0 + 1 + k' = n0 + (k' + 1) := by omega
                                              rw [this]; exact hfree⟩
    · rw [if_neg hmem]
      exact hmem

/-- C5: nickname uniqueness resolution — a free sanitized name is
returned unchanged; a taken one gets increasing integer suffixes tried
from 2 ("Bob", then "Bob2", then "Bob3"); the resulting name is never
held by another live connection. -/
theorem uniqueNick_resolution :
    (∀ (taken : List String) (desired : String),
        desired ∉ taken → uniqueNick taken desired = desired) ∧
    uniqueNick ["Bob"] "Bob" = "Bob2" ∧
    uniqueNick ["Bob", "Bob2"] "Bob" = "Bob3" ∧
    (∀ (taken : List String) (desired : String), uniqueNick taken desired ∉ taken) := by
  refine ⟨fun taken desired h => by simp [uniqueNick, h], by decide, by decide, ?_⟩
  intro taken desired
  unfold uniqueNick
  by_cases h : desired ∈ taken
  · rw [if_pos h]
    refine firstFreeNick_not_mem taken desired (taken.length + 1) 2 ?_
    obtain ⟨k, hk, hfree⟩ := exists_free_candidate taken desired 2
    exact ⟨k, by omega, hfree⟩
  · rw [if_neg h]
    exact h

/-- Witness for C5 at concrete inputs. -/
theorem uniqueNick_resolution_witness :
    uniqueNick ["Bob"] "Alice" = "Alice" ∧ uniqueNick ["Bob"] "Bob" ∉ ["Bob"] :=
  ⟨uniqueNick_resolution.1 ["Bob"] "Alice" (by decide),
   uniqueNick_resolution.2.2.2 ["Bob"] "Bob"⟩

/-- C6 counterexample: with a live connection already named with 24 'a's
(the sanitized form of the same request), a second request for that
nickname is assigned the 25-character nick "aaaaaaaaaaaaaaaaaaaaaaaa2" —
uniqueness suffixes are appended after truncation, so the final nickname
exceeds the 24-character maximum. -/
theorem assignedNick_length_counterexample :
    MAX_NICK_LEN <
      (uniqueNick ["aaaaaaaaaaaaaaaaaaaaaaaa"]
        (sanitizeNick "aaaaaaaaaaaaaaaaaaaaaaaa")).length := by decide

/-- C6 (amended): the sanitized, truncated, defaulted nickname has length
at most 24, and the finally assigned nickname has length at most 24
whenever the sanitized name is not already held by a live connection;
the uniqueness suffix is appended after truncation and can push the
assigned name beyond 24 characters. -/
theorem sanitizeNick_length_bound (raw : String) (taken : List String) :
    (sanitizeNick raw).length ≤ MAX_NICK_LEN ∧
    (sanitizeNick raw ∉ taken → (uniqueNick taken (sanitizeNick raw)).length ≤ MAX_NICK_LEN) := by
  have h1 : (sanitizeNick raw).length ≤ MAX_NICK_LEN := by
    unfold sanitizeNick
    split
    · decide
    · simp only [String.length]
      exact List.length_take_le MAX_NICK_LEN ((jsTrim raw).data.filter isNickChar)
  refine ⟨h1, fun hfree => ?_⟩
  rw [uniqueNick_resolution.1 taken _ hfree]
  exact h1

/-- Witness for C6's amended theorem at concrete inputs. -/
theorem sanitizeNick_length_bound_witness :
    (sanitizeNick "Bob").length ≤ MAX_NICK_LEN ∧
    (uniqueNick ["Alice"] (sanitizeNick "Bob")).length ≤ MAX_NICK_LEN :=
  ⟨(sanitizeNick_length_bound "Bob" ["Alice"]).1,
   (sanitizeNick_length_bound "Bob" ["Alice"]).2 (by decide)⟩

set_option maxRecDepth 4000 in
/-- C4: the history buffer never exceeds `MAX_HISTORY` (50) entries,
appends preserve insertion order, eviction is FIFO (the oldest entry is
shifted off), and appending the messages 1..51 to an empty buffer leaves
exactly the messages 2..51 in order. -/
theorem addToHistory_bounded_fifo :
    (∀ (α : Type) (h : List α) (m : α),
        h.length ≤ MAX_HISTORY → (addToHistory h m).length ≤ MAX_HISTORY) ∧
    (∀ (α : Type) (h : List α) (m : α),
        h.length < MAX_HISTORY → addToHistory h m = h ++ [m]) ∧
    (∀ (α : Type) (h : List α) (m : α),
        h.length = MAX_HISTORY → addToHistory h m = h.tail ++ [m]) ∧
    ((List.range 51).map (· + 1)).foldl addToHistory ([] : List Nat) =
      (List.range 50).map (· + 2) := by
  refine ⟨?_, ?_, ?_, by decide⟩
  · intro α h m hle
    unfold addToHistory
    split
    · rw [List.length_tail]
      simp only [List.length_append, List.length_cons, List.length_nil]
      omega
    · simp only [List.length_append, List.length_cons, List.length_nil] at *
      omega
  · intro α h m hlt
    unfold addToHistory
    rw [if_neg]
    simp
    omega
  · intro α h m heq
    unfold addToHistory
    rw [if_pos]
    · cases h with
      | nil => simp [MAX_HISTORY] at heq
      | cons a t => simp
    · simp
      omega

/-- Witness for C4 at concrete inputs. -/
theorem addToHistory_bounded_fifo_witness :
    (addToHistory (List.range 50) 99).length ≤ MAX_HISTORY ∧
    addToHistory [10, 20] 30 = [10, 20, 30] ∧
    addToHistory (List.range 50) 50 = (List.range 50).tail ++ [50] :=
  ⟨addToHistory_bounded_fifo.1 Nat (List.range 50) 99 (by decide),
   addToHistory_bounded_fifo.2.1 Nat [10, 20] 30 (by decide),
   addToHistory_bounded_fifo.2.2.1 Nat (List.range 50) 50 (by decide)⟩

/-- C7: the accept token is (definitionally) the pure function
base64(SHA-1(key ++ GUID)), and on the RFC 6455 sample key
`dGhlIHNhbXBsZSBub25jZQ==` it yields `s3pPLMBiTxaQ9kYGzzhZRbK+xOo=`. -/
theorem computeAccept_pure_and_vector :
    (∀ key, computeAccept key = String.mk (b64Enc (sha1 (utf8Bytes (key ++ WS_MAGIC))))) ∧
    computeAccept "dGhlIHNhbXBsZSBub25jZQ==" = "s3pPLMBiTxaQ9kYGzzhZRbK+xOo=" :=
  ⟨fun _ => rfl, by set_option maxRecDepth 10000 in decide⟩


theorem parseFrame_buildFrame_small (p : List Nat) (h : p.length < 126) :
    parseFrame (buildFrame p) = some ⟨1, p, 2 + p.length⟩ := by
  have hb : buildFrame p = [0x81, p.length] ++ p := by
    simp [buildFrame, h]
  rw [hb]
  unfold parseFrame
  have h1 : p.length % 128 = p.length := Nat.mod_eq_of_lt (by omega)
  have h2 : p.length / 128 = 0 := Nat.div_eq_of_lt (by omega)
  simp only [List.cons_append, List.nil_append, List.length_cons, List.getD_cons_zero,
    List.getD_cons_succ, h1, h2]
  rw [if_neg (by omega : ¬ p.length + 1 + 1 < 2)]
  rw [if_neg (by omega : ¬ p.length = 126), if_neg (by omega : ¬ p.length = 127)]
  simp [List.take_length, List.drop, Nat.mod_eq_of_lt, h1]
  omega

theorem parseFrame_buildFrame_mid (p : List Nat) (h1 : 126 ≤ p.length) (h2 : p.length < 65536) :
    parseFrame (buildFrame p) = some ⟨1, p, 4 + p.length⟩ := by
  have hb : buildFrame p = [0x81, 126, p.length / 256, p.length % 256] ++ p := by
    simp [buildFrame, show ¬ p.length < 126 by omega, h2]
  rw [hb]
  unfold parseFrame
  simp only [List.cons_append, List.nil_append, List.length_cons, List.getD_cons_zero,
    List.getD_cons_succ, readUInt16BE]
  rw [if_neg (by omega : ¬ p.length + 1 + 1 + 1 + 1 < 2)]
  norm_num
  rw [if_neg (by omega : ¬ p.length + 4 < 4)]
  have hr : p.length / 256 * 256 + p.length % 256 = p.length := by omega
  simp [hr, List.take_length, List.drop]
  omega

theorem parseFrame_buildFrame_large (p : List Nat) (h1 : 65536 ≤ p.length) (h2 : p.length < 2 ^ 32) :
    parseFrame (buildFrame p) = some ⟨1, p, 10 + p.length⟩ := by
  have hb : buildFrame p = [0x81, 127, 0, 0, 0, 0, p.length / 16777216 % 256,
      p.length / 65536 % 256, p.length / 256 % 256, p.length % 256] ++ p := by
    simp [buildFrame, show ¬ p.length < 126 by omega, show ¬ p.length < 65536 by omega]
  rw [hb]
  unfold parseFrame
  simp only [List.cons_append, List.nil_append, List.length_cons, List.getD_cons_zero,
    List.getD_cons_succ, readUInt32BE]
  rw [if_neg (by omega : ¬ p.length + 1 + 1 + 1 + 1 + 1 + 1 + 1 + 1 + 1 + 1 < 2)]
  norm_num
  rw [if_neg (by omega : ¬ p.length + 10 < 10)]
  have hr : p.length / 16777216 % 256 * 16777216 + p.length / 65536 % 256 * 65536 +
      p.length / 256 % 256 * 256 + p.length % 256 = p.length := by omega
  simp [hr, List.take_length, List.drop]
  omega

theorem buildFrame_roundTrip (p : List Nat) (h : p.length < 2 ^ 32) :
    parseFrame (buildFrame p) =
      some ⟨1, p, (if p.length < 126 then 2 else if p.length < 65536 then 4 else 10) + p.length⟩ ∧
    (buildFrame p).getD 0 0 = 0x81 ∧
    (buildFrame p).getD 1 0 < 128 ∧
    (buildFrame p).length =
      (if p.length < 126 then 2 else if p.length < 65536 then 4 else 10) + p.length := by
  by_cases h1 : p.length < 126
  · refine ⟨?_, ?_, ?_, ?_⟩
    · simpa [h1] using parseFrame_buildFrame_small p h1
    · simp [buildFrame, h1]
    · simp [buildFrame, h1]
      omega
    · simp [buildFrame, h1]
      omega
  · by_cases h2 : p.length < 65536
    · refine ⟨?_, ?_, ?_, ?_⟩
      · simpa [h1, h2] using parseFrame_buildFrame_mid p (by omega) h2
      · simp [buildFrame, h1, h2]
      · simp [buildFrame, h1, h2]
      · simp [buildFrame, h1, h2]
        omega
    · refine ⟨?_, ?_, ?_, ?_⟩
      · simpa [h1, h2] using parseFrame_buildFrame_large p (by omega) h
      · simp [buildFrame, h1, h2]
      · simp [buildFrame, h1, h2]
      · simp [buildFrame, h1, h2]
        omega

theorem parseFrame_none_iff (buf : List Nat) :
    parseFrame buf = none ↔ buf.length < frameRequired buf := by
  match buf with
  | [] => simp [parseFrame, frameRequired]
  | [b0] => simp [parseFrame, frameRequired]
  | b0 :: b1 :: rest =>
    have hl2 : ¬ (rest.length + 1 + 1 < 2) := by omega
    by_cases h126 : b1 % 128 = 126
    · by_cases h4 : rest.length + 2 < 4
      · simp [parseFrame, frameRequired, hl2, h126, h4]
      · by_cases hm : b1 / 128 % 2 = 1
        · simp [parseFrame, frameRequired, hl2, h126, h4, hm]
        · simp [parseFrame, frameRequired, hl2, h126, h4, hm]
    · by_cases h127 : b1 % 128 = 127
      · by_cases h10 : rest.length + 2 < 10
        · simp [parseFrame, frameRequired, hl2, h126, h127, h10]
        · by_cases hm : b1 / 128 % 2 = 1
          · simp [parseFrame, frameRequired, hl2, h126, h127, h10, hm]
          · simp [parseFrame, frameRequired, hl2, h126, h127, h10, hm]
      · by_cases hm : b1 / 128 % 2 = 1
        · simp [parseFrame, frameRequired, hl2, h126, h127, hm]
        · simp [parseFrame, frameRequired, hl2, h126, h127, hm]

theorem parseFrame_some_props (buf : List Nat) (f : Frame) (hf : parseFrame buf = some f) :
    f.totalLength = frameRequired buf ∧ f.totalLength ≤ buf.length := by
  match buf with
  | [] => simp [parseFrame] at hf
  | [b0] => simp [parseFrame] at hf
  | b0 :: b1 :: rest =>
    have hl2 : ¬ (rest.length + 1 + 1 < 2) := by omega
    by_cases h126 : b1 % 128 = 126
    · by_cases h4 : rest.length + 2 < 4
      · simp [parseFrame, hl2, h126, show rest.length + 1 + 1 < 4 by omega] at hf
      · by_cases hm : b1 / 128 % 2 = 1
        · simp [parseFrame, hl2, h126, h4, hm] at hf
          obtain ⟨hbound, rfl⟩ := hf
          simp [frameRequired, hl2, h126, h4, hm]
          omega
        · simp [parseFrame, hl2, h126, h4, hm] at hf
          obtain ⟨hbound, rfl⟩ := hf
          simp [frameRequired, hl2, h126, h4, hm]
          omega
    · by_cases h127 : b1 % 128 = 127
      · by_cases h10 : rest.length + 2 < 10
        · simp [parseFrame, hl2, h126, h127, show rest.length + 1 + 1 < 10 by omega] at hf
        · by_cases hm : b1 / 128 % 2 = 1
          · simp [parseFrame, hl2, h126, h127, h10, hm] at hf
            obtain ⟨hbound, rfl⟩ := hf
            simp [frameRequired, hl2, h126, h127, h10, hm]
            omega
          · simp [parseFrame, hl2, h126, h127, h10, hm] at hf
            obtain ⟨hbound, rfl⟩ := hf
            simp [frameRequired, hl2, h126, h127, h10, hm]
            omega
      · by_cases hm : b1 / 128 % 2 = 1
        · simp [parseFrame, hl2, h126, h127, hm] at hf
          obtain ⟨hbound, rfl⟩ := hf
          simp [frameRequired, hl2, h126, h127, hm]
          omega
        · simp [parseFrame, hl2, h126, h127, hm] at hf
          obtain ⟨hbound, rfl⟩ := hf
          simp [frameRequired, hl2, h126, h127, hm]
          omega

/-- C2: parsing the frame produced by `buildFrame` yields a complete
text frame (opcode 1) whose payload is the original bytes; the header is
the minimal-width encoding (2 bytes below 126, 4 bytes below 65536, 10
bytes otherwise with zero high word), with FIN set (byte 0 is 0x81) and
the mask bit clear (byte 1 below 128).  This covers in particular the
payload lengths 0, 1, 125, 126, 65535 and 65536. -/
theorem frame_roundTrip_spec :
    (∀ p : List Nat, p.length < 2 ^ 32 →
      parseFrame (buildFrame p) =
        some ⟨1, p, (if p.length < 126 then 2 else if p.length < 65536 then 4 else 10) + p.length⟩ ∧
      (buildFrame p).getD 0 0 = 0x81 ∧
      (buildFrame p).getD 1 0 < 128 ∧
      (buildFrame p).length =
        (if p.length < 126 then 2 else if p.length < 65536 then 4 else 10) + p.length) ∧
    (∀ t : String, (utf8Bytes t).length < 2 ^ 32 →
      parseFrame (buildFrameText t) =
        some ⟨1, utf8Bytes t,
          (if (utf8Bytes t).length < 126 then 2
           else if (utf8Bytes t).length < 65536 then 4 else 10) + (utf8Bytes t).length⟩) :=
  ⟨fun p h => buildFrame_roundTrip p h, fun t h => (buildFrame_roundTrip (utf8Bytes t) h).1⟩

/-- Witness for C2 at a concrete one-byte payload. -/
theorem frame_roundTrip_spec_witness :
    parseFrame (buildFrame [7]) =
      some ⟨1, [7], (if ([7] : List Nat).length < 126 then 2
                     else if ([7] : List Nat).length < 65536 then 4 else 10) + [7].length⟩ :=
  (frame_roundTrip_spec.1 [7] (by norm_num)).1

/-- C9: `parseFrame` is a total function into `Option Frame`: it returns
`none` ("incomplete", never an error) exactly when the buffer holds
fewer bytes than the frame currently requires, a complete frame's
consumed `totalLength` equals that requirement and never exceeds the
buffer length, and on an incomplete parse the data-handler loop keeps
the accumulation buffer unchanged for retry. -/
theorem parseFrame_total_incomplete :
    (∀ buf : List Nat, parseFrame buf = none ↔ buf.length < frameRequired buf) ∧
    (∀ (buf : List Nat) (f : Frame), parseFrame buf = some f →
        f.totalLength = frameRequired buf ∧ f.totalLength ≤ buf.length) ∧
    (∀ buf : List Nat, parseFrame buf = none → dataStep buf = (none, buf)) := by
  refine ⟨parseFrame_none_iff, parseFrame_some_props, ?_⟩
  intro buf h
  simp [dataStep, h]

/-- Witness for C9 at concrete buffers. -/
theorem parseFrame_total_incomplete_witness :
    ((⟨1, [55], 3⟩ : Frame).totalLength = frameRequired [129, 1, 55] ∧
     (⟨1, [55], 3⟩ : Frame).totalLength ≤ [129, 1, 55].length) ∧
    dataStep [129] = (none, [129]) := by
  constructor
  · exact parseFrame_total_incomplete.2.1 [129, 1, 55] ⟨1, [55], 3⟩ (by decide)
  · exact parseFrame_total_incomplete.2.2 [129] (by decide)

theorem stringMk_eq_empty_iff (l : List Char) : (String.mk l = "") ↔ l = [] := by
  simp [String.ext_iff]

theorem runChat_within (msgs : List (String × Nat)) :
    ∀ (st : HandlerSt),
      st.client.rateCount + msgs.length ≤ RATE_LIMIT_MSG →
      (∀ m ∈ msgs, m.2 - st.client.rateStart ≤ RATE_LIMIT_WIN) →
      (∀ m ∈ msgs, (jsTrim m.1).data.take MAX_MSG_LEN ≠ []) →
      (runChat st msgs).1.client =
        { st.client with rateCount := st.client.rateCount + msgs.length } ∧
      (runChat st msgs).2.1 = false ∧
      (runChat st msgs).2.2 = msgs.map (fun m =>
        ChatOutcome.delivered ⟨st.client.nick, String.mk ((jsTrim m.1).data.take MAX_MSG_LEN), m.2⟩) := by
  induction msgs with
  | nil => intro st _ _ _; simp [runChat]
  | cons m rest ih =>
    intro st hcount htimes htexts
    obtain ⟨t, now⟩ := m
    have hno : ¬ (RATE_LIMIT_WIN < now - st.client.rateStart) :=
      Nat.not_lt.2 (htimes (t, now) (by simp))
    have hkick : ¬ (RATE_LIMIT_MSG < st.client.rateCount + 1) := by
      simp at hcount ⊢
      omega
    have hne : ¬ (String.mk ((jsTrim t).data.take MAX_MSG_LEN) = "") := by
      rw [stringMk_eq_empty_iff]
      exact htexts (t, now) (by simp)
    rw [runChat]
    simp only [handleChatText, hno, if_false, hkick, hne, if_neg]
    obtain ⟨h1, h2, h3⟩ := ih
      { client := { nick := st.client.nick, rateCount := st.client.rateCount + 1,
                    rateStart := st.client.rateStart },
        history := addToHistory st.history
          ⟨st.client.nick, String.mk ((jsTrim t).data.take MAX_MSG_LEN), now⟩,
        broadcasts := st.broadcasts ++
          [⟨st.client.nick, String.mk ((jsTrim t).data.take MAX_MSG_LEN), now⟩] }
      (by simp at hcount ⊢; omega)
      (by intro m hm; exact htimes m (by simp [hm]))
      (by intro m hm; exact htexts m (by simp [hm]))
    refine ⟨?_, h2, ?_⟩
    · rw [h1]
      simp
      omega
    · rw [h3]
      simp

theorem runChat_empty_within (msgs : List (String × Nat)) :
    ∀ (st : HandlerSt),
      st.client.rateCount + msgs.length ≤ RATE_LIMIT_MSG →
      (∀ m ∈ msgs, m.2 - st.client.rateStart ≤ RATE_LIMIT_WIN) →
      (∀ m ∈ msgs, jsTrim m.1 = "") →
      (runChat st msgs).1.client =
        { st.client with rateCount := st.client.rateCount + msgs.length } ∧
      (runChat st msgs).1.history = st.history ∧
      (runChat st msgs).1.broadcasts = st.broadcasts ∧
      (runChat st msgs).2.1 = false := by
  induction msgs with
  | nil => intro st _ _ _; simp [runChat]
  | cons m rest ih =>
    intro st hcount htimes htexts
    obtain ⟨t, now⟩ := m
    have hno : ¬ (RATE_LIMIT_WIN < now - st.client.rateStart) :=
      Nat.not_lt.2 (htimes (t, now) (by simp))
    have hkick : ¬ (RATE_LIMIT_MSG < st.client.rateCount + 1) := by
      simp at hcount ⊢
      omega
    have hempty : String.mk ((jsTrim t).data.take MAX_MSG_LEN) = "" := by
      rw [stringMk_eq_empty_iff]
      have := htexts (t, now) (by simp)
      rw [this]
      rfl
    rw [runChat]
    simp only [handleChatText, hno, if_false, hkick, if_neg, hempty, if_pos, if_true]
    obtain ⟨h1, h2, h3, h4⟩ := ih
      { client := { nick := st.client.nick, rateCount := st.client.rateCount + 1,
                    rateStart := st.client.rateStart },
        history := st.history, broadcasts := st.broadcasts }
      (by simp at hcount ⊢; omega)
      (by intro m hm; exact htimes m (by simp [hm]))
      (by intro m hm; exact htexts m (by simp [hm]))
    refine ⟨?_, h2, h3, h4⟩
    rw [h1]
    simp
    omega

theorem runChat_append (l1 l2 : List (String × Nat)) :
    ∀ (st : HandlerSt), (runChat st l1).2.1 = false →
      (runChat st (l1 ++ l2)).1 = (runChat (runChat st l1).1 l2).1 ∧
      (runChat st (l1 ++ l2)).2.1 = (runChat (runChat st l1).1 l2).2.1 ∧
      (runChat st (l1 ++ l2)).2.2 = (runChat st l1).2.2 ++ (runChat (runChat st l1).1 l2).2.2 := by
  induction l1 with
  | nil => intro st _; simp [runChat]
  | cons m rest ih =>
    intro st hnk
    obtain ⟨t, now⟩ := m
    rcases hh : handleChatText st t now with ⟨st', out⟩
    cases out with
    | kicked => rw [runChat, hh] at hnk; simp at hnk
    | dropped =>
      rw [List.cons_append, runChat, hh]
      rw [runChat, hh] at hnk ⊢
      simp only at hnk ⊢
      obtain ⟨g1, g2, g3⟩ := ih st' (by simpa using hnk)
      simp [g1, g2, g3]
    | delivered msg =>
      rw [List.cons_append, runChat, hh]
      rw [runChat, hh] at hnk ⊢
      simp only at hnk ⊢
      obtain ⟨g1, g2, g3⟩ := ih st' (by simpa using hnk)
      simp [g1, g2, g3]

theorem string_ne_empty_data (s : String) (h : s ≠ "") : s.data ≠ [] := by
  intro hd
  exact h (String.ext hd)

theorem take_msgLen_ne_nil (l : List Char) (h : l ≠ []) : l.take MAX_MSG_LEN ≠ [] := by
  cases l with
  | nil => exact absurd rfl h
  | cons a as =>
    show (a :: as).take (999 + 1) ≠ []
    rw [List.take_succ_cons]
    simp

/-- C3: the rate limiter is a fixed 1000 ms window with threshold 5:
any run of in-window chat messages that keeps the count at or below 5 is
fully delivered with the count incremented per message and the window
start unchanged; a message arriving with the count already at 5 and the
window not yet elapsed is kicked; once more than 1000 ms have elapsed
the window start resets to now and the count to zero before the
increment, so the message is accepted with count 1.  Together these give
the 5-accepted / 6th-kicked / reset-after-window behaviour. -/
theorem rateLimiter_fixed_window :
    (∀ (st : HandlerSt) (msgs : List (String × Nat)),
        st.client.rateCount + msgs.length ≤ RATE_LIMIT_MSG →
        (∀ m ∈ msgs, m.2 - st.client.rateStart ≤ RATE_LIMIT_WIN) →
        (∀ m ∈ msgs, jsTrim m.1 ≠ "") →
        (runChat st msgs).2.1 = false ∧
        (runChat st msgs).2.2 = msgs.map (fun m =>
          ChatOutcome.delivered
            ⟨st.client.nick, String.mk ((jsTrim m.1).data.take MAX_MSG_LEN), m.2⟩) ∧
        (runChat st msgs).1.client.rateCount = st.client.rateCount + msgs.length ∧
        (runChat st msgs).1.client.rateStart = st.client.rateStart) ∧
    (∀ (st : HandlerSt) (text : String) (now : Nat),
        st.client.rateCount = RATE_LIMIT_MSG → now - st.client.rateStart ≤ RATE_LIMIT_WIN →
        (handleChatText st text now).2 = .kicked) ∧
    (∀ (st : HandlerSt) (text : String) (now : Nat),
        RATE_LIMIT_WIN < now - st.client.rateStart →
        (handleChatText st text now).1.client.rateStart = now ∧
        (handleChatText st text now).1.client.rateCount = 1 ∧
        (handleChatText st text now).2 ≠ .kicked) := by
  refine ⟨?_, ?_, ?_⟩
  · intro st msgs hcount htimes htexts
    obtain ⟨h1, h2, h3⟩ := runChat_within msgs st hcount htimes
      (fun m hm => take_msgLen_ne_nil _ (string_ne_empty_data _ (htexts m hm)))
    exact ⟨h2, h3, by rw [h1], by rw [h1]⟩
  · intro st text now hc hw
    have hno : ¬ (RATE_LIMIT_WIN < now - st.client.rateStart) := Nat.not_lt.2 hw
    simp [handleChatText, hno, hc, RATE_LIMIT_MSG]
  · intro st text now hw
    refine ⟨?_, ?_, ?_⟩ <;>
      simp only [handleChatText, hw, if_pos, if_true] <;>
      split_ifs <;>
      simp_all [RATE_LIMIT_MSG]

theorem handleChatText_kick (st : HandlerSt) (text : String) (now : Nat)
    (hc : st.client.rateCount = RATE_LIMIT_MSG)
    (hw : now - st.client.rateStart ≤ RATE_LIMIT_WIN) :
    (handleChatText st text now).2 = .kicked := by
  have hno : ¬ (RATE_LIMIT_WIN < now - st.client.rateStart) := Nat.not_lt.2 hw
  simp [handleChatText, hno, hc, RATE_LIMIT_MSG]

/-- C10: a chat message whose text trims to the empty string is neither
appended to the history nor broadcast, yet the rate counter is still
incremented before the emptiness check (the outcome is kicked or
dropped, never delivered), and six empty messages within one window
still trigger disconnection. -/
theorem emptyMsg_rate_counted :
    (∀ (st : HandlerSt) (text : String) (now : Nat), jsTrim text = "" →
        (handleChatText st text now).1.history = st.history ∧
        (handleChatText st text now).1.broadcasts = st.broadcasts ∧
        (handleChatText st text now).1.client.rateCount =
          (if RATE_LIMIT_WIN < now - st.client.rateStart then 0 else st.client.rateCount) + 1 ∧
        ((handleChatText st text now).2 = .kicked ∨ (handleChatText st text now).2 = .dropped)) ∧
    (∀ (nick : String) (hist bc : List ChatMsg) (t0 : Nat) (msgs : List (String × Nat)),
        msgs.length = 6 →
        (∀ m ∈ msgs, m.2 - t0 ≤ RATE_LIMIT_WIN) →
        (∀ m ∈ msgs, jsTrim m.1 = "") →
        (runChat ⟨⟨nick, 0, t0⟩, hist, bc⟩ msgs).2.1 = true) := by
  constructor
  · intro st text now he
    have hmk : String.mk ((jsTrim text).data.take MAX_MSG_LEN) = "" := by
      rw [stringMk_eq_empty_iff, he]
      rfl
    refine ⟨?_, ?_, ?_, ?_⟩ <;> (simp only [handleChatText, hmk]; split_ifs <;> simp_all)
  · intro nick hist bc t0 msgs hlen htimes hempty
    rcases List.eq_nil_or_concat' msgs with rfl | ⟨l5, m6, rfl⟩
    · simp at hlen
    have hl5 : l5.length = 5 := by simpa using hlen
    obtain ⟨hc5, _, _, hnk5⟩ := runChat_empty_within l5 ⟨⟨nick, 0, t0⟩, hist, bc⟩
      (by simp [hl5, RATE_LIMIT_MSG])
      (by intro m hm; exact htimes m (by simp [hm]))
      (by intro m hm; exact hempty m (by simp [hm]))
    obtain ⟨_, happ, _⟩ := runChat_append l5 [m6] ⟨⟨nick, 0, t0⟩, hist, bc⟩ hnk5
    rw [happ]
    obtain ⟨t6, n6⟩ := m6
    have hkick := handleChatText_kick (runChat ⟨⟨nick, 0, t0⟩, hist, bc⟩ l5).1 t6 n6
      (by rw [hc5]; simp [hl5, RATE_LIMIT_MSG])
      (by rw [hc5]; simpa using htimes (t6, n6) (by simp))
    rcases hh : handleChatText (runChat ⟨⟨nick, 0, t0⟩, hist, bc⟩ l5).1 t6 n6 with ⟨st6, out⟩
    rw [hh] at hkick
    simp only at hkick
    subst hkick
    rw [runChat, hh]

/-- Witness for C3 at concrete message sequences. -/
theorem rateLimiter_fixed_window_witness :
    (runChat ⟨⟨"Bob", 0, 0⟩, [], []⟩
        [("a", 1), ("b", 2), ("c", 3), ("d", 4), ("e", 5)]).2.1 = false ∧
    (handleChatText ⟨⟨"Bob", 5, 0⟩, [], []⟩ "f" 6).2 = .kicked ∧
    (handleChatText ⟨⟨"Bob", 5, 0⟩, [], []⟩ "g" 2000).2 ≠ .kicked :=
  ⟨(rateLimiter_fixed_window.1 ⟨⟨"Bob", 0, 0⟩, [], []⟩ _ (by decide) (by decide) (by decide)).1,
   rateLimiter_fixed_window.2.1 ⟨⟨"Bob", 5, 0⟩, [], []⟩ "f" 6 (by decide) (by decide),
   (rateLimiter_fixed_window.2.2 ⟨⟨"Bob", 5, 0⟩, [], []⟩ "g" 2000 (by decide)).2.2⟩

/-- Witness for C10 at concrete message sequences. -/
theorem emptyMsg_rate_counted_witness :
    ((handleChatText ⟨⟨"Bob", 0, 0⟩, [], []⟩ " " 1).2 = .kicked ∨
     (handleChatText ⟨⟨"Bob", 0, 0⟩, [], []⟩ " " 1).2 = .dropped) ∧
    (runChat ⟨⟨"Bob", 0, 0⟩, [], []⟩
        [("", 1), ("", 2), ("", 3), ("", 4), ("", 5), ("", 6)]).2.1 = true :=
  ⟨(emptyMsg_rate_counted.1 ⟨⟨"Bob", 0, 0⟩, [], []⟩ " " 1 (by decide)).2.2.2,
   emptyMsg_rate_counted.2 "Bob" [] [] 0 _ (by decide) (by decide) (by decide)⟩


theorem find?_filter_ne (l : List (Nat × LConn)) (sid : Nat) :
    ((l.filter fun p => p.1 != sid).find? fun p => p.1 == sid) = none := by
  induction l with
  | nil => rfl
  | cons p rest ih =>
    by_cases h : p.1 = sid
    · simp [List.filter_cons, h, ih]
    · simp [List.filter_cons, h, List.find?, ih]

theorem onClose_idem (st : LState) (sid : Nat) (nick : String) (n1 n2 : Nat) :
    onClose (onClose st sid nick n1) sid nick n2 = onClose st sid nick n1 := by
  by_cases h : (st.clients.find? fun p => p.1 == sid).isSome
  · have h2 : ((onClose st sid nick n1).clients.find? fun p => p.1 == sid) = none := by
      unfold onClose
      rw [if_pos h]
      exact find?_filter_ne _ _
    rw [onClose, h2]
    simp
  · have h2 : ((onClose st sid nick n1).clients.find? fun p => p.1 == sid) =
        (st.clients.find? fun p => p.1 == sid) := by
      unfold onClose
      rw [if_neg h]
    rw [onClose, h2, if_neg h]

theorem destroySocket_fields (st : LState) (sid : Nat) :
    (destroySocket st sid).clients = st.clients ∧
    (destroySocket st sid).history = st.history ∧
    (destroySocket st sid).broadcasts = st.broadcasts := by
  unfold destroySocket
  split <;> simp

theorem destroy_close_teardown (st : LState) (sid : Nat) (nick : String) (now n2 : Nat)
    (hs : (st.clients.find? fun p => p.1 == sid).isSome) :
    (runEvents st [.rateKick sid, .closeEvt sid nick now]).clients =
      (st.clients.filter fun p => p.1 != sid) ∧
    (runEvents st [.rateKick sid, .closeEvt sid nick now]).broadcasts =
      st.broadcasts ++
        [⟨nick ++ " left", now, (st.clients.filter fun p => p.1 != sid).length⟩] ∧
    runEvents st [.rateKick sid, .closeEvt sid nick now, .closeEvt sid nick n2] =
      runEvents st [.rateKick sid, .closeEvt sid nick now] := by
  obtain ⟨hc, hh, hb⟩ := destroySocket_fields st sid
  have hs' : ((destroySocket st sid).clients.find? fun p => p.1 == sid).isSome := by
    rw [hc]; exact hs
  have hrun : runEvents st [.rateKick sid, .closeEvt sid nick now] =
      onClose (destroySocket st sid) sid nick now := rfl
  constructor
  · rw [hrun]
    unfold onClose
    rw [if_pos hs']
    simp [hc]
  constructor
  · rw [hrun]
    unfold onClose
    rw [if_pos hs']
    simp [hc, hb]
  · have : runEvents st [.rateKick sid, .closeEvt sid nick now, .closeEvt sid nick n2] =
        onClose (onClose (destroySocket st sid) sid nick now) sid nick n2 := rfl
    rw [this, hrun, onClose_idem]

theorem keepalive_timeout_removes_silently (sid : Nat) (nick nick' : String)
    (hist bc : List SysMsg) (pings : List Nat) (n2 : Nat) :
    runEvents ⟨[(sid, ⟨nick, false⟩)], hist, bc, pings, []⟩ [.tick, .closeEvt sid nick' n2] =
      ⟨[], hist, bc, pings, [sid]⟩ := by
  have h1 : keepaliveTick ⟨[(sid, ⟨nick, false⟩)], hist, bc, pings, []⟩ =
      ⟨[], hist, bc, pings, [sid]⟩ := by
    unfold keepaliveTick
    simp [tickOne, destroySocket]
  show lstep (lstep _ .tick) (.closeEvt sid nick' n2) = _
  simp only [lstep, h1]
  unfold onClose
  simp

/-- C8: protocol-fatal conditions are refused before any Connection
state is created — with the registry at capacity (100) the upgrade is
refused with a 503 response before the handshake is attempted (whatever
the key), and below capacity a missing `Sec-WebSocket-Key` destroys the
socket with no response; in both cases the registry and the id counter
are untouched and no Connection is registered. -/
theorem handleUpgrade_refusals :
    (∀ (st : UpSt) (sock : Nat) (secKey : Option String) (rawNick : String),
        MAX_CLIENTS ≤ st.clients.length →
        handleUpgrade st sock secKey rawNick = (st, ⟨some .serviceUnavailable, true, false⟩)) ∧
    (∀ (st : UpSt) (sock : Nat) (rawNick : String),
        st.clients.length < MAX_CLIENTS →
        handleUpgrade st sock none rawNick = (st, ⟨none, true, false⟩)) := by
  constructor
  · intro st sock key nick h
    simp [handleUpgrade, h]
  · intro st sock nick h
    simp [handleUpgrade, Nat.not_le.2 h]

/-- Witness for C8: a full registry refuses with 503 even with a valid
key; an empty registry with no key destroys the socket silently. -/
theorem handleUpgrade_refusals_witness :
    handleUpgrade ⟨List.replicate 100 (0, ⟨0, "x"⟩), 1⟩ 7 (some "k") "Bob" =
      (⟨List.replicate 100 (0, ⟨0, "x"⟩), 1⟩, ⟨some .serviceUnavailable, true, false⟩) ∧
    handleUpgrade ⟨[], 1⟩ 7 none "Bob" = (⟨[], 1⟩, ⟨none, true, false⟩) :=
  ⟨handleUpgrade_refusals.1 ⟨List.replicate 100 (0, ⟨0, "x"⟩), 1⟩ 7 (some "k") "Bob" (by decide),
   handleUpgrade_refusals.2 ⟨[], 1⟩ 7 "Bob" (by decide)⟩

/-- C1 counterexample: a keepalive timeout does not broadcast a leave
message.  One registered connection (socket 1, nick "Bob") with its
liveness flag clear is evicted by the keepalive tick, which deletes it
from the registry before the socket's asynchronous `'close'` event runs
`onClose`; the membership guard then makes `onClose` a no-op, so the
connection is removed but no `system` leave message is ever broadcast —
refuting the claim that every teardown both removes the connection and
broadcasts a leave message. -/
theorem teardown_keepalive_counterexample :
    (runEvents ⟨[(1, ⟨"Bob", false⟩)], [], [], [], []⟩
        [.tick, .closeEvt 1 "Bob" 31000]).clients = [] ∧
    (runEvents ⟨[(1, ⟨"Bob", false⟩)], [], [], [], []⟩
        [.tick, .closeEvt 1 "Bob" 31000]).broadcasts = [] := by decide

/-- C1 (amended): `onClose` teardown is idempotent, so it fires at most
once per connection no matter how many trigger paths reach it; when the
connection is still registered it removes it and broadcasts exactly one
`system` leave message carrying the updated connection count; the
close-frame and rate-kick triggers are the same `destroy()` path and,
followed by the socket's `'close'` emission, produce exactly one such
teardown (a repeated `'close'` delivery is a no-op); a keepalive-timeout
eviction, by contrast, removes the connection directly in the tick and
the subsequent `'close'` event broadcasts nothing. -/
theorem teardown_once_per_trigger :
    (∀ (st : LState) (sid : Nat) (nick : String) (n1 n2 : Nat),
        onClose (onClose st sid nick n1) sid nick n2 = onClose st sid nick n1) ∧
    (∀ (st : LState) (sid : Nat) (nick : String) (now : Nat),
        (st.clients.find? fun p => p.1 == sid).isSome →
        onClose st sid nick now =
          { st with clients := st.clients.filter fun p => p.1 != sid,
                    history := addToHistory st.history
                      ⟨nick ++ " left", now, (st.clients.filter fun p => p.1 != sid).length⟩,
                    broadcasts := st.broadcasts ++
                      [⟨nick ++ " left", now,
                        (st.clients.filter fun p => p.1 != sid).length⟩] }) ∧
    (∀ (st : LState) (sid : Nat), lstep st (.closeFrame sid) = lstep st (.rateKick sid)) ∧
    (∀ (st : LState) (sid : Nat) (nick : String) (now n2 : Nat),
        (st.clients.find? fun p => p.1 == sid).isSome →
        (runEvents st [.rateKick sid, .closeEvt sid nick now]).clients =
          (st.clients.filter fun p => p.1 != sid) ∧
        (runEvents st [.rateKick sid, .closeEvt sid nick now]).broadcasts =
          st.broadcasts ++
            [⟨nick ++ " left", now, (st.clients.filter fun p => p.1 != sid).length⟩] ∧
        runEvents st [.rateKick sid, .closeEvt sid nick now, .closeEvt sid nick n2] =
          runEvents st [.rateKick sid, .closeEvt sid nick now]) ∧
    (∀ (sid : Nat) (nick nick' : String) (hist bc : List SysMsg) (pings : List Nat) (n2 : Nat),
        runEvents ⟨[(sid, ⟨nick, false⟩)], hist, bc, pings, []⟩ [.tick, .closeEvt sid nick' n2] =
          ⟨[], hist, bc, pings, [sid]⟩) := by
  refine ⟨onClose_idem, ?_, fun st sid => rfl, destroy_close_teardown, ?_⟩
  · intro st sid nick now h
    unfold onClose
    rw [if_pos h]
  · intro sid nick nick' hist bc pings n2
    exact keepalive_timeout_removes_silently sid nick nick' hist bc pings n2

/-- Witness for C1's amended theorem at a concrete one-connection state. -/
theorem teardown_once_per_trigger_witness :
    (runEvents ⟨[(1, ⟨"Bob", true⟩)], [], [], [], []⟩
        [.rateKick 1, .closeEvt 1 "Bob" 5]).broadcasts = [⟨"Bob left", 5, 0⟩] ∧
    runEvents ⟨[(1, ⟨"Bob", true⟩)], [], [], [], []⟩
        [.rateKick 1, .closeEvt 1 "Bob" 5, .closeEvt 1 "Bob" 6] =
      runEvents ⟨[(1, ⟨"Bob", true⟩)], [], [], [], []⟩ [.rateKick 1, .closeEvt 1 "Bob" 5] := by
  have h := teardown_once_per_trigger.2.2.2.1
    ⟨[(1, ⟨"Bob", true⟩)], [], [], [], []⟩ 1 "Bob" 5 6 (by decide)
  exact ⟨by rw [h.2.1]; decide, h.2.2⟩
